import Mathlib

/-!
Shallow embedding of `src/testfs.c` (testfs: virtual test file system on FUSE).

Modelling conventions:
- C `int` values are Lean `Int` with explicit 32-bit twos-complement wrapping
  (`wrap32`) applied wherever the C arithmetic can overflow or convert.
- C `size_t` is `Nat` (values reduced mod 2^64 where a conversion occurs),
  C `off_t` is `Int` (64-bit, the FUSE build forces _FILE_OFFSET_BITS=64).
- A handler returning `-E` in C is modelled as `Except.error E`.
- Path strings are taken as ASCII (one byte per character, positive as a
  signed `char`), which covers every path the claims quantify over; a
  character byte value is `Char.toNat`.
-/

namespace Testfs

deriving instance DecidableEq for Except

/-- MAXTOK from testfs.c line 82: maximum path tokens and tree layers. -/
def MAXTOK : Nat := 16

/-- MAXWIDTH from testfs.c line 83: maximum fan-out per layer. -/
def MAXWIDTH : Int := 1000000

/-- errno value ENOENT; a C return of -ENOENT is `Except.error ENOENT`. -/
def ENOENT : Int := 2

/-- errno value EACCES; a C return of -EACCES is `Except.error EACCES`. -/
def EACCES : Int := 13

/-- stat mode bit for directories (octal 040000). -/
def S_IFDIR : Nat := 0o40000

/-- stat mode bit for regular files (octal 100000). -/
def S_IFREG : Nat := 0o100000

/-- Reduce an integer to 32-bit twos-complement range [-2^31, 2^31). -/
def wrap32 (n : Int) : Int := (n + 2 ^ 31) % 2 ^ 32 - 2 ^ 31

/-- Split a character list at every occurrence of `delim`, keeping the empty
pieces: helper for the strtok model. `cur` is the (reversed) piece in
progress. -/
def splitOnChar (delim : Char) : List Char → List Char → List (List Char)
  | [], cur => [cur.reverse]
  | c :: cs, cur =>
    if c = delim then cur.reverse :: splitOnChar delim cs []
    else splitOnChar delim cs (c :: cur)

/-- Model of repeated `strtok(buf, delim)` calls (testfs.c uses them in
`parse_root` and `parse_path`): the successive maximal nonempty runs of
non-delimiter characters. Runs of delimiters, including leading and trailing
ones, separate tokens and are skipped. -/
def strtokAll (delim : Char) (s : String) : List String :=
  ((splitOnChar delim s.data []).filter (fun t => t ≠ [])).map String.mk

/-- The whitespace characters skipped by the `%d` conversion of sscanf and by
`atoi` (C `isspace`). -/
def isCSpace (c : Char) : Bool :=
  c = ' ' || c = '\t' || c = '\n' || c = '\x0b' || c = '\x0c' || c = '\r'

/-- Accumulate the value of the leading decimal-digit run of a character
list, starting from `acc`; stops at the first non-digit. -/
def digitsVal : List Char → Nat → Nat
  | c :: cs, acc => if c.isDigit then digitsVal cs (acc * 10 + (c.toNat - 48)) else acc
  | [], acc => acc

/-- Model of `sscanf(s, "%d...", &val) == 1`: the `%d` conversion skips
whitespace, accepts an optional sign, and needs at least one digit; the
return value of sscanf counts assigned conversions, so whatever literal text
follows `%d` in the format cannot change the `== 1` outcome (an early
matching failure after the assignment still returns 1). Yields the assigned
`val`. Values outside `int` range wrap (glibc behaviour; ISO C leaves it
undefined). -/
def sscanf_d (s : String) : Option Int :=
  let cs := s.data.dropWhile (fun c => isCSpace c)
  match cs with
  | '-' :: rest =>
    match rest with
    | c :: _ => if c.isDigit then some (wrap32 (-(digitsVal rest 0 : Int))) else none
    | [] => none
  | '+' :: rest =>
    match rest with
    | c :: _ => if c.isDigit then some (wrap32 (digitsVal rest 0)) else none
    | [] => none
  | rest =>
    match rest with
    | c :: _ => if c.isDigit then some (wrap32 (digitsVal rest 0)) else none
    | [] => none

/-- Model of C `atoi`: same grammar as the `%d` conversion, defaulting to 0
when no digits are found. -/
def atoi (s : String) : Int := (sscanf_d s).getD 0

/-- root_struct from testfs.c lines 86-90. The C `width[MAXTOK]` array is
zero-filled by memset and then its first `depth` cells are written, so it is
modelled as the list of those `depth` cells; reads use `List.getD _ _ 0`,
matching the zero fill. -/
structure root_struct where
  fsize : Int
  width : List Int
  deriving Repr, DecidableEq

/-- Tree depth: number of parsed layer widths (testfs.c keeps it as a
separate counter `root->depth`, always equal to the number of filled
`width` cells). -/
def root_struct.depth (r : root_struct) : Nat := r.width.length

/-- The width-parsing loop of `parse_root` (testfs.c lines 127-137): consume
tokens while fewer than MAXTOK widths are stored; each token goes through
`atoi` and must land in [1, MAXWIDTH], otherwise the whole parse fails.
Tokens left over once MAXTOK widths are stored are ignored (the loop guard
fails before they are examined). The `strlen(p) == 0` branch of line 131 is
dead: strtok never yields an empty token. -/
def widthLoop : List String → List Int → Option (List Int)
  | [], acc => some acc
  | t :: ts, acc =>
    if acc.length < MAXTOK then
      if atoi t ≤ 0 ∨ MAXWIDTH < atoi t then none
      else widthLoop ts (acc ++ [atoi t])
    else some acc

/-- parse_root from testfs.c lines 92-139. The first `x`-token is the size
token; every sscanf guard in the eight-branch cascade (lines 105-123) is
`sscanf(p,"%d<suffix>",&val) == 1`, which holds exactly when the `%d`
conversion assigns, independent of the suffix — so the very first branch
(`"%dk"`, ×1024) wins whenever any of them would, and `fsize = val*1024`
(32-bit arithmetic). The remaining tokens feed the width loop. -/
def parse_root (str : String) : Option root_struct :=
  match strtokAll 'x' str with
  | [] => none
  | p :: rest =>
    match sscanf_d p with
    | none => none
    | some val =>
      (widthLoop rest []).map (fun ws => ⟨wrap32 (val * 1024), ws⟩)

/-- seed_from_path from testfs.c lines 142-154: fold each character of the
path into unsigned 32-bit accumulators (`seed += (*p)*x; x = *p`), then
return the accumulator converted to `int` (twos-complement wrap for values
at or above 2^31). `x` starts at 0 so the first character only sets the
weight. -/
def seedLoop : List Char → Nat → Nat → Nat
  | [], _, seed => seed
  | c :: cs, x, seed => seedLoop cs c.toNat ((seed + c.toNat * x) % 2 ^ 32)

/-- Conversion of the final unsigned accumulator to a C `int` return value. -/
def seed_from_path (path : String) : Int :=
  let s := seedLoop path.data 0 0
  if s < 2 ^ 31 then (s : Int) else (s : Int) - 2 ^ 32

/-- parse_path from testfs.c lines 156-170: strtok the path on `/`,
collecting at most MAXTOK tokens; any further tokens are dropped. -/
def parse_path (path : String) : List String := (strtokAll '/' path).take MAXTOK

/-- The stat fields testfs_getattr fills (the rest stay zero from memset). -/
structure stat_struct where
  st_mode : Nat
  st_nlink : Nat
  st_size : Int
  deriving Repr, DecidableEq

/-- Body of testfs_getattr after tokenization (testfs.c lines 187-204):
`ntok = rest.length + 1` tokens were found. -/
def getattr_aux : List String → Except Int stat_struct
  | [] => .error ENOENT
  | tok0 :: rest =>
    match parse_root tok0 with
    | none => .error ENOENT
    | some root =>
      if rest.length + 1 ≤ root.depth then
        .ok ⟨S_IFDIR + 0o755, 2, 0⟩
      else if rest.length + 1 = root.depth + 1 then
        .ok ⟨S_IFREG + 0o444, 1, root.fsize⟩
      else
        .error ENOENT

/-- testfs_getattr from testfs.c lines 173-205. -/
def testfs_getattr (path : String) : Except Int stat_struct :=
  if path = "/" then .error ENOENT
  else getattr_aux (parse_path path)

/-- Body of testfs_readdir after tokenization (testfs.c lines 223-236): on
success the emitted entries, in filler order. `sprintf(fname,"%d",i)` for
`0 ≤ i < width[ntok-1]` is the decimal numeral of `i`. -/
def readdir_aux : List String → Except Int (List String)
  | [] => .error ENOENT
  | tok0 :: rest =>
    match parse_root tok0 with
    | none => .error ENOENT
    | some root =>
      if root.depth < rest.length + 1 then .error ENOENT
      else
        .ok ("." :: ".." ::
          (List.range (root.width.getD rest.length 0).toNat).map (fun i => toString i))

/-- testfs_readdir from testfs.c lines 207-237. -/
def testfs_readdir (path : String) : Except Int (List String) :=
  if path = "/" then .error ENOENT
  else readdir_aux (parse_path path)

/-- Body of testfs_open after tokenization (testfs.c lines 249-256).
`tok[ntok-1]` is `rest.getLastD tok0`. For `depth = 0` the C code reads
`width[-1]`, which in the struct layout is the `depth` field itself, i.e. 0;
`List.getD` with the saturating `depth - 1 = 0` on the empty width list also
gives 0, so the outcomes coincide (every candidate is rejected).
`(fi->flags & 3) != O_RDONLY` keeps the low two access-mode bits:
`flags % 4 ≠ 0`. -/
def open_aux : List String → Nat → Except Int Unit
  | [], _ => .error ENOENT
  | tok0 :: rest, flags =>
    match parse_root tok0 with
    | none => .error ENOENT
    | some root =>
      if rest.length + 1 ≠ root.depth + 1 then .error ENOENT
      else
        match sscanf_d (rest.getLastD tok0) with
        | none => .error ENOENT
        | some val =>
          if val < 0 ∨ root.width.getD (root.depth - 1) 0 ≤ val then .error ENOENT
          else if flags % 4 ≠ 0 then .error EACCES
          else .ok ()

/-- testfs_open from testfs.c lines 239-257. -/
def testfs_open (path : String) (flags : Nat) : Except Int Unit :=
  open_aux (parse_path path) flags

/-- One byte of generated file content (testfs.c lines 286-291), given the
seed, the file size and the already-wrapped `int j`: newline when
`j % 32 == 31` (C truncated `%`) or `j == fsize - 1`, otherwise
`'a' + (seed + j*1723) % 26` in 32-bit arithmetic. -/
def contentByte (seed fsize j : Int) : Int :=
  if j.tmod 32 = 31 ∨ j = fsize - 1 then 10
  else 97 + (wrap32 (seed + wrap32 (j * 1723))).tmod 26

/-- Body of testfs_read after tokenization (testfs.c lines 273-294). The
clamp `if (root.fsize-offset < size) size = root.fsize-offset;` compares an
`off_t` with a `size_t`: the signed difference converts to unsigned 64-bit,
so a negative difference becomes a huge value and usually fails the test.
`size <= 0` on the unsigned `size` means `size == 0`. Inside the loop,
`j = i + offset` truncates to `int`. The seed is taken from the full,
untokenized path (parse_path works on its own copy of the string). -/
def read_aux (path : String) : List String → Nat → Int → Nat → Except Int (List Int)
  | [], _, _, _ => .error ENOENT
  | tok0 :: rest, size, offset, flags =>
    match parse_root tok0 with
    | none => .error ENOENT
    | some root =>
      if rest.length + 1 ≠ root.depth + 1 then .error ENOENT
      else
        match sscanf_d (rest.getLastD tok0) with
        | none => .error ENOENT
        | some val =>
          if val < 0 ∨ root.width.getD (root.depth - 1) 0 ≤ val then .error ENOENT
          else if flags % 4 ≠ 0 then .error EACCES
          else
            let size1 : Nat :=
              if ((root.fsize - offset) % (2 ^ 64 : Int)).toNat < size
              then ((root.fsize - offset) % (2 ^ 64 : Int)).toNat else size
            if size1 = 0 then .ok []
            else
              .ok ((List.range size1).map (fun i : Nat =>
                contentByte (seed_from_path path) root.fsize (wrap32 ((i : Int) + offset))))

/-- testfs_read from testfs.c lines 259-295; result `.ok buf` stands for the
returned byte count together with the buffer contents. -/
def testfs_read (path : String) (size : Nat) (offset : Int) (flags : Nat) :
    Except Int (List Int) :=
  read_aux path (parse_path path) size offset flags

/-- Modelled from the spec (§4.3): the per-file seed fold
`seed = seed + char*weight; weight = char` read over unbounded integers, as
the claims state it. Comparison definition for the content-generation
claims; the code-side fold is `seedLoop`. -/
def specSeedLoop : List Char → Nat → Nat → Nat
  | [], _, seed => seed
  | c :: cs, x, seed => specSeedLoop cs c.toNat (seed + c.toNat * x)

/-- Modelled from the spec: the seed of a path under the unbounded fold. -/
def specSeed (path : String) : Nat := specSeedLoop path.data 0 0

/-- Modelled from the spec (§4.3 byte rule, claim C5): newline when
`j mod 32 = 31` or `j = file_size - 1`, otherwise the lowercase letter at
index `(seed + j*1723) mod 26`, all in unbounded arithmetic. -/
def specContentByte (path : String) (fsize j : Int) : Int :=
  if j % 32 = 31 ∨ j = fsize - 1 then 10
  else 97 + ((specSeed path : Int) + j * 1723) % 26


/-! Helper lemmas. -/

theorem wrap32_lb (n : Int) : -2 ^ 31 ≤ wrap32 n := by
  unfold wrap32; omega

theorem wrap32_ub (n : Int) : wrap32 n < 2 ^ 31 := by
  unfold wrap32; omega

theorem wrap32_eq_self {n : Int} (h1 : -2 ^ 31 ≤ n) (h2 : n < 2 ^ 31) : wrap32 n = n := by
  unfold wrap32; omega

theorem parse_root_fsize_bounds {d : String} {r : root_struct} (h : parse_root d = some r) :
    -2 ^ 31 ≤ r.fsize ∧ r.fsize < 2 ^ 31 := by
  unfold parse_root at h
  rcases hs : strtokAll 'x' d with _ | ⟨p, rest⟩
  · simp only [hs] at h
    exact Option.noConfusion h
  · simp only [hs] at h
    rcases hv : sscanf_d p with _ | val
    · simp only [hv] at h
      exact Option.noConfusion h
    · simp only [hv] at h
      rcases hw : widthLoop rest [] with _ | ws
      · simp only [hw, Option.map_none'] at h
        exact Option.noConfusion h
      · simp only [hw, Option.map_some', Option.some.injEq] at h
        subst h
        exact ⟨wrap32_lb _, wrap32_ub _⟩

theorem parse_path_length_le (p : String) : (parse_path p).length ≤ MAXTOK :=
  List.length_take_le _ _

theorem parse_path_slash : parse_path "/" = [] := by decide

theorem ne_slash_of_parse_path {p d : String} {rest : List String}
    (hp : parse_path p = d :: rest) : p ≠ "/" := by
  intro hq
  rw [hq, parse_path_slash] at hp
  exact List.noConfusion hp

theorem seedLoop_eq_specSeedLoop (cs : List Char) (x a : Nat) :
    seedLoop cs x (a % 2 ^ 32) = specSeedLoop cs x a % 2 ^ 32 := by
  induction cs generalizing x a with
  | nil => rfl
  | cons c cs ih =>
    show seedLoop cs c.toNat ((a % 2 ^ 32 + c.toNat * x) % 2 ^ 32) = _
    rw [Nat.mod_add_mod]
    exact ih c.toNat (a + c.toNat * x)

theorem seed_from_path_eq_specSeed {p : String} (h : specSeed p < 2 ^ 31) :
    seed_from_path p = (specSeed p : Int) := by
  have hss : specSeedLoop p.data 0 0 = specSeed p := rfl
  have h0 : seedLoop p.data 0 0 = specSeed p := by
    have h1 := seedLoop_eq_specSeedLoop p.data 0 0
    simp only [Nat.zero_mod] at h1
    rw [h1, hss, Nat.mod_eq_of_lt (by omega)]
  simp only [seed_from_path]
  rw [h0, if_pos h]

/-- Reduction of `read_aux` to its content-generation branch when every
validation passes and the requested range stays inside the file. -/
theorem read_aux_generates (path d : String) (rest : List String) (r : root_struct)
    (val : Int) (size : Nat) (offset : Int)
    (hr : parse_root d = some r) (hn : rest.length = r.depth)
    (hv : sscanf_d (rest.getLastD d) = some val)
    (h0 : 0 ≤ val) (hw : val < r.width.getD (r.depth - 1) 0)
    (hlb : 0 ≤ r.fsize - offset) (hub : r.fsize - offset < 2 ^ 64)
    (hsz : (size : Int) ≤ r.fsize - offset) :
    read_aux path (d :: rest) size offset 0 =
      .ok ((List.range size).map (fun i : Nat =>
        contentByte (seed_from_path path) r.fsize (wrap32 ((i : Int) + offset)))) := by
  simp only [read_aux, hr, hv]
  rw [if_neg (show ¬(rest.length + 1 ≠ r.depth + 1) from by omega),
    if_neg (show ¬(val < 0 ∨ r.width.getD (r.depth - 1) 0 ≤ val) from by omega),
    if_neg (show ¬((0 : Nat) % 4 ≠ 0) from by omega)]
  rw [Int.emod_eq_of_lt hlb hub]
  rw [if_neg (show ¬((r.fsize - offset).toNat < size) from by omega)]
  by_cases hsz0 : size = 0
  · rw [if_pos hsz0, hsz0]
    simp
  · rw [if_neg hsz0]

/-! Claim theorems. -/

/-- C1 (code evaluated at the failing inputs): the size-token parse applies
×1024 to every numeral-led token regardless of suffix, because the first
sscanf guard (`"%dk"`) already returns 1 once `%d` assigns. So `5m` yields
5*1024 = 5120 (not 5*1024^2), a bare `7` yields 7168 (not 7), and `2g`
yields 2048 (not 2*1024^3). -/
theorem c1_parse_root_always_kib :
    parse_root "5m" = some ⟨5120, []⟩ ∧ parse_root "7" = some ⟨7168, []⟩ ∧
    parse_root "2g" = some ⟨2048, []⟩ := by decide

/-- C2 (code evaluated at the failing input): with `file_size = 1024`, a read
at `offset = 2000 > file_size` returns 4 generated bytes, not an empty
result — the clamp compares `off_t` against `size_t`, converting the
negative remainder to a huge unsigned value. At `offset = 1024 = file_size`
the read does return zero bytes. -/
theorem c2_read_past_eof_returns_bytes :
    (testfs_read "/1x1/0" 4 2000 0).map List.length = .ok 4 ∧
    testfs_read "/1x1/0" 4 1024 0 = .ok [] := by decide

/-- C3 counterexample: the segment `x5x4` does NOT fail descriptor parsing —
strtok skips the leading delimiter, so it parses as size token `5` (5120
bytes) with widths [4], and attribute lookup on `/x5x4` reports a
directory. -/
theorem c3_counterexample_x5x4_parses :
    parse_root "x5x4" = some ⟨5120, [4]⟩ ∧
    testfs_getattr "/x5x4" = .ok ⟨S_IFDIR + 0o755, 2, 0⟩ := by decide

/-- C3 amended: every path whose first segment is `5x0x3` (a zero width)
fails descriptor parsing, and all four operations report not-found. -/
theorem c3_amended_5x0x3_not_found (p : String) (rest : List String) (flags sz : Nat)
    (off : Int) (hp : parse_path p = "5x0x3" :: rest) :
    testfs_getattr p = .error ENOENT ∧ testfs_readdir p = .error ENOENT ∧
    testfs_open p flags = .error ENOENT ∧ testfs_read p sz off flags = .error ENOENT := by
  have hproot := ne_slash_of_parse_path hp
  have hr : parse_root "5x0x3" = none := by decide
  refine ⟨?_, ?_, ?_, ?_⟩
  · unfold testfs_getattr
    rw [if_neg hproot, hp]
    simp only [getattr_aux, hr]
  · unfold testfs_readdir
    rw [if_neg hproot, hp]
    simp only [readdir_aux, hr]
  · unfold testfs_open
    rw [hp]
    simp only [open_aux, hr]
  · unfold testfs_read
    rw [hp]
    simp only [read_aux, hr]

/-- Witness for c3_amended_5x0x3_not_found at path `/5x0x3/1`. -/
theorem c3_amended_5x0x3_not_found_witness :
    parse_path "/5x0x3/1" = ["5x0x3", "1"] ∧
    (testfs_getattr "/5x0x3/1" = .error ENOENT ∧
      testfs_readdir "/5x0x3/1" = .error ENOENT ∧
      testfs_open "/5x0x3/1" 0 = .error ENOENT ∧
      testfs_read "/5x0x3/1" 8 0 0 = .error ENOENT) :=
  ⟨by decide, c3_amended_5x0x3_not_found "/5x0x3/1" ["1"] 0 8 0 (by decide)⟩

/-- C4 counterexample: opening a valid file path with flags = 1024
(O_APPEND alone, an append intent with a read-only access mode) succeeds —
the handler only inspects the low two access-mode bits `flags & 3`, so the
append bit is not rejected as the claim states. -/
theorem c4_counterexample_append_accepted :
    testfs_open "/1kx5x4/2/3" 1024 = .ok () := by decide

/-- C4 amended: for a valid file path (token count = depth+1, numeric leaf
in range), open succeeds iff the access mode — the low two bits of the open
flags — is read-only (`flags % 4 = 0`); write and read-write access modes
are rejected with permission-denied; bits outside the access mode (such as
O_APPEND) are not examined. -/
theorem c4_amended_open_access_mode (p d : String) (rest : List String) (r : root_struct)
    (val : Int) (flags : Nat)
    (hp : parse_path p = d :: rest) (hr : parse_root d = some r)
    (hn : rest.length = r.depth)
    (hv : sscanf_d (rest.getLastD d) = some val)
    (h0 : 0 ≤ val) (hw : val < r.width.getD (r.depth - 1) 0) :
    (testfs_open p flags = .ok () ↔ flags % 4 = 0) ∧
    (flags % 4 ≠ 0 → testfs_open p flags = .error EACCES) := by
  unfold testfs_open
  rw [hp]
  simp only [open_aux, hr, hv]
  rw [if_neg (show ¬(rest.length + 1 ≠ r.depth + 1) from by omega),
    if_neg (show ¬(val < 0 ∨ r.width.getD (r.depth - 1) 0 ≤ val) from by omega)]
  by_cases hf : flags % 4 = 0
  · rw [if_neg (show ¬(flags % 4 ≠ 0) from by omega)]
    simp [hf]
  · rw [if_pos hf]
    simp [hf]

/-- Witness for c4_amended_open_access_mode at `/1kx5x4/2/3`, flags 0. -/
theorem c4_amended_open_access_mode_witness :
    (parse_path "/1kx5x4/2/3" = ["1kx5x4", "2", "3"] ∧ sscanf_d "3" = some 3) ∧
    testfs_open "/1kx5x4/2/3" 0 = .ok () :=
  ⟨⟨by decide, by decide⟩,
    ((c4_amended_open_access_mode "/1kx5x4/2/3" "1kx5x4" ["2", "3"] ⟨1024, [5, 4]⟩ 3 0
      (by decide) (by decide) (by decide) (by decide) (by decide) (by decide)).1).mpr
      (by decide)⟩

/-- C6: for every path with a valid descriptor and k (numeric) segments
after the root segment, attribute lookup reports a directory when
k < depth, a regular read-only file of size `fsize` when k = depth, and
not-found when k > depth. -/
theorem c6_getattr_classification (p d : String) (rest : List String) (r : root_struct)
    (hp : parse_path p = d :: rest) (hr : parse_root d = some r)
    (hnum : ∀ s ∈ rest, (sscanf_d s).isSome) :
    (rest.length < r.depth → testfs_getattr p = .ok ⟨S_IFDIR + 0o755, 2, 0⟩) ∧
    (rest.length = r.depth → testfs_getattr p = .ok ⟨S_IFREG + 0o444, 1, r.fsize⟩) ∧
    (r.depth < rest.length → testfs_getattr p = .error ENOENT) := by
  have hproot := ne_slash_of_parse_path hp
  unfold testfs_getattr
  rw [if_neg hproot, hp]
  simp only [getattr_aux, hr]
  refine ⟨fun h => ?_, fun h => ?_, fun h => ?_⟩
  · rw [if_pos (by omega)]
  · rw [if_neg (by omega), if_pos (by omega)]
  · rw [if_neg (by omega), if_neg (by omega)]

/-- Witness for c6_getattr_classification at the directory path
`/1kx5x4/2`. -/
theorem c6_getattr_classification_witness :
    (parse_path "/1kx5x4/2" = ["1kx5x4", "2"] ∧
      parse_root "1kx5x4" = some ⟨1024, [5, 4]⟩) ∧
    testfs_getattr "/1kx5x4/2" = .ok ⟨S_IFDIR + 0o755, 2, 0⟩ :=
  ⟨⟨by decide, by decide⟩,
    (c6_getattr_classification "/1kx5x4/2" "1kx5x4" ["2"] ⟨1024, [5, 4]⟩
      (by decide) (by decide) (by decide)).1 (by decide)⟩

/-- C7: directory listing on a path classified as a directory emits exactly
w + 2 entries — `.` and `..` followed by the decimal strings 0 .. w-1 —
where w is the descriptor width at the layer selected by the token count. -/
theorem c7_readdir_width_entries (p d : String) (rest : List String) (r : root_struct)
    (hp : parse_path p = d :: rest) (hr : parse_root d = some r)
    (hdir : rest.length < r.depth) :
    testfs_readdir p =
      .ok ("." :: ".." ::
        (List.range (r.width.getD rest.length 0).toNat).map (fun i => toString i)) ∧
    ("." :: ".." ::
      (List.range (r.width.getD rest.length 0).toNat).map (fun i => toString i)).length =
      (r.width.getD rest.length 0).toNat + 2 := by
  have hproot := ne_slash_of_parse_path hp
  constructor
  · unfold testfs_readdir
    rw [if_neg hproot, hp]
    simp only [readdir_aux, hr]
    rw [if_neg (by omega)]
  · simp only [List.length_cons, List.length_map, List.length_range]

/-- Witness for c7_readdir_width_entries at `/1kx5x4/2` (width 4). -/
theorem c7_readdir_width_entries_witness :
    (parse_path "/1kx5x4/2" = ["1kx5x4", "2"] ∧ (1 : Nat) < 2) ∧
    testfs_readdir "/1kx5x4/2" = .ok [".", "..", "0", "1", "2", "3"] := by
  refine ⟨⟨by decide, by decide⟩, ?_⟩
  have h := (c7_readdir_width_entries "/1kx5x4/2" "1kx5x4" ["2"] ⟨1024, [5, 4]⟩
    (by decide) (by decide) (by decide)).1
  rw [h]
  decide

/-- C10: under a descriptor with the maximum 16 layers, file nodes are
unreachable — the tokenizer caps every path at 16 tokens, so open and read
always report not-found and attribute lookup never reports a regular file
(any successful lookup is a directory). -/
theorem c10_depth16_files_unreachable (p d : String) (rest : List String) (r : root_struct)
    (flags sz : Nat) (off : Int)
    (hp : parse_path p = d :: rest) (hr : parse_root d = some r) (hd : r.depth = 16) :
    (∀ q : String, (parse_path q).length ≤ MAXTOK) ∧
    testfs_open p flags = .error ENOENT ∧
    testfs_read p sz off flags = .error ENOENT ∧
    (∀ st, testfs_getattr p = .ok st → st.st_mode = S_IFDIR + 0o755) := by
  have hlen : rest.length + 1 ≤ 16 := by
    have h1 := parse_path_length_le p
    rw [hp] at h1
    simpa [MAXTOK] using h1
  refine ⟨fun q => parse_path_length_le q, ?_, ?_, ?_⟩
  · unfold testfs_open
    rw [hp]
    simp only [open_aux, hr]
    rw [if_pos (by omega)]
  · unfold testfs_read
    rw [hp]
    simp only [read_aux, hr]
    rw [if_pos (by omega)]
  · intro st hst
    unfold testfs_getattr at hst
    by_cases hq : p = "/"
    · rw [if_pos hq] at hst
      exact Except.noConfusion hst
    · rw [if_neg hq, hp] at hst
      simp only [getattr_aux, hr] at hst
      rw [if_pos (by omega)] at hst
      simp only [Except.ok.injEq] at hst
      rw [← hst]

/-- Witness for c10_depth16_files_unreachable under the 16-layer descriptor
`1x1x1x1x1x1x1x1x1x1x1x1x1x1x1x1x1`. -/
theorem c10_depth16_files_unreachable_witness :
    (parse_path "/1x1x1x1x1x1x1x1x1x1x1x1x1x1x1x1x1" =
      ["1x1x1x1x1x1x1x1x1x1x1x1x1x1x1x1x1"] ∧
      parse_root "1x1x1x1x1x1x1x1x1x1x1x1x1x1x1x1x1" =
        some ⟨1024, [1, 1, 1, 1, 1, 1, 1, 1, 1, 1, 1, 1, 1, 1, 1, 1]⟩) ∧
    testfs_open "/1x1x1x1x1x1x1x1x1x1x1x1x1x1x1x1x1" 0 = .error ENOENT ∧
    testfs_read "/1x1x1x1x1x1x1x1x1x1x1x1x1x1x1x1x1" 8 0 0 = .error ENOENT ∧
    (∀ st, testfs_getattr "/1x1x1x1x1x1x1x1x1x1x1x1x1x1x1x1x1" = .ok st →
      st.st_mode = S_IFDIR + 0o755) :=
  ⟨⟨by decide, by decide⟩,
    (c10_depth16_files_unreachable "/1x1x1x1x1x1x1x1x1x1x1x1x1x1x1x1x1"
      "1x1x1x1x1x1x1x1x1x1x1x1x1x1x1x1x1" []
      ⟨1024, [1, 1, 1, 1, 1, 1, 1, 1, 1, 1, 1, 1, 1, 1, 1, 1]⟩ 0 8 0
      (by decide) (by decide) (by decide)).2⟩

/-- C9: the handlers never examine the values of intermediate path
segments — under a valid descriptor, a path with arbitrary (non-numeric or
out-of-range) intermediate segments is still reported as a directory or
file by attribute lookup and listed by readdir, and open and read still
succeed whenever the token count and the final segment are valid. -/
theorem c9_intermediate_segments_unchecked (p d : String) (rest : List String)
    (r : root_struct)
    (hp : parse_path p = d :: rest) (hr : parse_root d = some r) :
    (rest.length < r.depth →
      testfs_getattr p = .ok ⟨S_IFDIR + 0o755, 2, 0⟩ ∧
      testfs_readdir p = .ok ("." :: ".." ::
        (List.range (r.width.getD rest.length 0).toNat).map (fun i => toString i))) ∧
    (∀ mid lastTok val, rest = mid ++ [lastTok] → mid.length + 1 = r.depth →
      sscanf_d lastTok = some val → 0 ≤ val → val < r.width.getD (r.depth - 1) 0 →
      testfs_getattr p = .ok ⟨S_IFREG + 0o444, 1, r.fsize⟩ ∧
      testfs_open p 0 = .ok () ∧
      (∀ sz : Nat, ∀ off : Int, ∃ bs, testfs_read p sz off 0 = .ok bs)) := by
  have hproot := ne_slash_of_parse_path hp
  constructor
  · intro hdir
    constructor
    · unfold testfs_getattr
      rw [if_neg hproot, hp]
      simp only [getattr_aux, hr]
      rw [if_pos (by omega)]
    · unfold testfs_readdir
      rw [if_neg hproot, hp]
      simp only [readdir_aux, hr]
      rw [if_neg (by omega)]
  · intro mid lastTok val hrest hlen hv h0 hw
    have hlast : rest.getLastD d = lastTok := by
      rw [hrest]
      simp
    have hrl : rest.length = r.depth := by
      rw [hrest]
      simp
      omega
    refine ⟨?_, ?_, ?_⟩
    · unfold testfs_getattr
      rw [if_neg hproot, hp]
      simp only [getattr_aux, hr]
      rw [if_neg (by omega), if_pos (by omega)]
    · unfold testfs_open
      rw [hp]
      simp only [open_aux, hr, hlast, hv]
      rw [if_neg (show ¬(rest.length + 1 ≠ r.depth + 1) from by omega),
        if_neg (show ¬(val < 0 ∨ r.width.getD (r.depth - 1) 0 ≤ val) from by omega),
        if_neg (show ¬((0 : Nat) % 4 ≠ 0) from by omega)]
    · intro sz off
      unfold testfs_read
      rw [hp]
      simp only [read_aux, hr, hlast, hv]
      rw [if_neg (show ¬(rest.length + 1 ≠ r.depth + 1) from by omega),
        if_neg (show ¬(val < 0 ∨ r.width.getD (r.depth - 1) 0 ≤ val) from by omega),
        if_neg (show ¬((0 : Nat) % 4 ≠ 0) from by omega)]
      by_cases hcl : (if ((r.fsize - off) % (2 ^ 64 : Int)).toNat < sz
          then ((r.fsize - off) % (2 ^ 64 : Int)).toNat else sz) = 0
      · rw [if_pos hcl]
        exact ⟨[], rfl⟩
      · rw [if_neg hcl]
        exact ⟨_, rfl⟩

/-- Witness for c9_intermediate_segments_unchecked at `/1kx5x4/banana/3`,
whose middle segment `banana` is not numeric. -/
theorem c9_intermediate_segments_unchecked_witness :
    (parse_path "/1kx5x4/banana/3" = ["1kx5x4", "banana", "3"] ∧
      sscanf_d "banana" = none) ∧
    testfs_getattr "/1kx5x4/banana/3" = .ok ⟨S_IFREG + 0o444, 1, 1024⟩ ∧
    testfs_open "/1kx5x4/banana/3" 0 = .ok () ∧
    (∃ bs, testfs_read "/1kx5x4/banana/3" 8 0 0 = .ok bs) := by
  refine ⟨⟨by decide, by decide⟩, ?_⟩
  have h := (c9_intermediate_segments_unchecked "/1kx5x4/banana/3" "1kx5x4" ["banana", "3"]
    ⟨1024, [5, 4]⟩ (by decide) (by decide)).2 ["banana"] "3" 3 (by decide) (by decide)
    (by decide) (by decide) (by decide)
  exact ⟨h.1, h.2.1, h.2.2 8 0⟩

/-- C8: for a valid file path, the full read over [0, file_size) has exactly
file_size bytes and ends in a newline, and every sub-range read inside the
file equals the corresponding slice of the full read. -/
theorem c8_read_roundtrip (p d : String) (rest : List String) (r : root_struct) (val : Int)
    (off sz : Nat)
    (hp : parse_path p = d :: rest) (hr : parse_root d = some r)
    (hn : rest.length = r.depth)
    (hv : sscanf_d (rest.getLastD d) = some val)
    (h0 : 0 ≤ val) (hw : val < r.width.getD (r.depth - 1) 0)
    (hpos : 0 < r.fsize) (hrange : off + sz ≤ r.fsize.toNat) :
    ∃ full, testfs_read p r.fsize.toNat 0 0 = .ok full ∧
      full.length = r.fsize.toNat ∧
      full.getLast? = some 10 ∧
      testfs_read p sz (off : Int) 0 = .ok ((full.drop off).take sz) := by
  have hfb := parse_root_fsize_bounds hr
  have hNf : ((r.fsize.toNat : Int)) = r.fsize := Int.toNat_of_nonneg (by omega)
  have hfull : testfs_read p r.fsize.toNat 0 0 =
      .ok ((List.range r.fsize.toNat).map (fun i : Nat =>
        contentByte (seed_from_path p) r.fsize (wrap32 ((i : Int) + 0)))) := by
    unfold testfs_read
    rw [hp]
    exact read_aux_generates p d rest r val r.fsize.toNat 0 hr hn hv h0 hw
      (by omega) (by omega) (by omega)
  refine ⟨_, hfull, by simp, ?_, ?_⟩
  · rw [List.getLast?_eq_getElem?]
    have hlen : ((List.range r.fsize.toNat).map (fun i : Nat =>
        contentByte (seed_from_path p) r.fsize (wrap32 ((i : Int) + 0)))).length =
        r.fsize.toNat := by simp
    rw [hlen, List.getElem?_eq_getElem (by simp; omega)]
    simp only [List.getElem_map, List.getElem_range]
    have hcast : ((r.fsize.toNat - 1 : Nat) : Int) + 0 = r.fsize - 1 := by omega
    rw [hcast, wrap32_eq_self (by omega) (by omega)]
    unfold contentByte
    rw [if_pos (Or.inr rfl)]
  · have hsub : testfs_read p sz (off : Int) 0 =
        .ok ((List.range sz).map (fun i : Nat =>
          contentByte (seed_from_path p) r.fsize (wrap32 ((i : Int) + (off : Int))))) := by
      unfold testfs_read
      rw [hp]
      exact read_aux_generates p d rest r val sz (off : Int) hr hn hv h0 hw
        (by omega) (by omega) (by omega)
    rw [hsub]
    congr 1
    apply List.ext_getElem
    · simp
      omega
    · intro i h1 h2
      simp only [List.getElem_map, List.getElem_range, List.getElem_take, List.getElem_drop]
      congr 2
      push_cast
      ring

/-- Witness for c8_read_roundtrip at `/1kx5x4/2/3`, sub-range [3, 8). -/
theorem c8_read_roundtrip_witness :
    (parse_path "/1kx5x4/2/3" = ["1kx5x4", "2", "3"] ∧ (3 + 5 : Nat) ≤ (1024 : Nat)) ∧
    (∃ full, testfs_read "/1kx5x4/2/3" 1024 0 0 = .ok full ∧
      full.length = 1024 ∧
      full.getLast? = some 10 ∧
      testfs_read "/1kx5x4/2/3" 5 ((3 : Nat) : Int) 0 = .ok ((full.drop 3).take 5)) :=
  ⟨⟨by decide, by decide⟩,
    c8_read_roundtrip "/1kx5x4/2/3" "1kx5x4" ["2", "3"] ⟨1024, [5, 4]⟩ 3 3 5
      (by decide) (by decide) (by decide) (by decide) (by decide) (by decide) (by decide)
      (by decide)⟩

/-- C5 counterexample: the claimed byte formula is evaluated by the code in
32-bit signed arithmetic, so it diverges once `seed + j*1723` leaves the
32-bit range: under descriptor `2000000x1` (file size 2048000000), reading
one byte at offset 2000000000 produces byte 114, while the formula of the
claim — seed fold and `(seed + j*1723) mod 26` over unbounded integers —
gives byte 104. -/
theorem c5_counterexample_overflow :
    parse_root "2000000x1" = some ⟨2048000000, [1]⟩ ∧
    testfs_read "/2000000x1/0" 1 2000000000 0 = .ok [114] ∧
    specContentByte "/2000000x1/0" 2048000000 2000000000 = 104 := by decide

/-- C5 amended: for a valid file path and byte position j in [0, file_size)
such that `seed + j*1723` stays below 2^31 (no 32-bit overflow; the seed of
the code is then exactly the unbounded fold of the spec), the byte read at
position j is the newline when `j mod 32 = 31` or `j = file_size - 1`, and
otherwise the lowercase letter at index `(seed + j*1723) mod 26` — that is,
exactly `specContentByte`. -/
theorem c5_amended_content_formula (p d : String) (rest : List String) (r : root_struct)
    (val j : Int)
    (hp : parse_path p = d :: rest) (hr : parse_root d = some r)
    (hn : rest.length = r.depth)
    (hv : sscanf_d (rest.getLastD d) = some val)
    (h0 : 0 ≤ val) (hw : val < r.width.getD (r.depth - 1) 0)
    (hj0 : 0 ≤ j) (hjf : j < r.fsize)
    (hov : (specSeed p : Int) + j * 1723 < 2 ^ 31) :
    testfs_read p 1 j 0 = .ok [specContentByte p r.fsize j] := by
  have hfb := parse_root_fsize_bounds hr
  have hred := read_aux_generates p d rest r val 1 j hr hn hv h0 hw
    (by omega) (by omega) (by omega)
  unfold testfs_read
  rw [hp, hred]
  rw [show List.range 1 = [0] from rfl]
  simp only [List.map_cons, List.map_nil]
  congr 1
  congr 1
  have hsp : (0 : Int) ≤ (specSeed p : Int) := by positivity
  have hm : 0 ≤ j * 1723 := by positivity
  have hseed : seed_from_path p = (specSeed p : Int) := by
    apply seed_from_path_eq_specSeed
    omega
  have hj32 : wrap32 (((0 : Nat) : Int) + j) = j := by
    rw [show ((0 : Nat) : Int) + j = j from by push_cast; ring]
    exact wrap32_eq_self (by omega) (by omega)
  rw [hj32, hseed]
  unfold contentByte specContentByte
  rw [Int.tmod_eq_emod hj0 (by norm_num)]
  by_cases hb : j % 32 = 31 ∨ j = r.fsize - 1
  · rw [if_pos hb, if_pos hb]
  · rw [if_neg hb, if_neg hb]
    rw [@wrap32_eq_self (j * 1723) (by omega) (by omega)]
    rw [@wrap32_eq_self ((specSeed p : Int) + j * 1723) (by omega) (by omega)]
    rw [Int.tmod_eq_emod (by omega) (by norm_num)]

/-- Witness for c5_amended_content_formula at `/1kx5x4/2/3`, j = 5. -/
theorem c5_amended_content_formula_witness :
    ((specSeed "/1kx5x4/2/3" : Int) + 5 * 1723 < 2 ^ 31) ∧
    testfs_read "/1kx5x4/2/3" 1 5 0 = .ok [specContentByte "/1kx5x4/2/3" 1024 5] :=
  ⟨by decide,
    c5_amended_content_formula "/1kx5x4/2/3" "1kx5x4" ["2", "3"] ⟨1024, [5, 4]⟩ 3 5
      (by decide) (by decide) (by decide) (by decide) (by decide) (by decide) (by decide)
      (by decide) (by decide)⟩

end Testfs
